import Mathlib

/-!
Verification development for the resample/aggregate routine
`post_process_resample` of `PowerExamples.py`.

Modelling conventions:
* The raw input file is modelled as a `List String` of its lines, each line
  given WITHOUT its terminating newline; the Python loop `for fileLine in
  rawFile` receives each line WITH its newline, so the model appends `"\n"`
  to a line before processing it (the file is taken to be newline-terminated).
* Numeric values are modelled exactly over `ℚ`: the accumulating sums are
  integers, and the Python 3 true division `/=` is modelled as exact rational
  division (the spec leaves the division semantics open, see its section 9).
* Output writes are modelled as an ordered list of written chunks `Wr`:
  verbatim text chunks (`Wr.raw`), averaged data records (`Wr.record`) and
  statistics lines (`Wr.statLine`), keeping records structural so that claims
  about numeric values are stated exactly.
* Python runtime failures are modelled by `PPErr`: `IndexError` from
  `lineSections[i]` on a too-short row, `ValueError` from `int()` on a
  non-integer field (carrying the offending field text, as the Python message
  does; it carries no line number), and `ZeroDivisionError` from the final
  mean computation when no output stripe was produced.
-/

set_option linter.unusedVariables false

namespace PowerExamples

/-- Runtime failures of `post_process_resample`, mirroring the Python
exceptions that the unguarded reference code can raise. -/
inductive PPErr where
  | indexError : PPErr
  | valueError : String → PPErr
  | zeroDivisionError : PPErr
deriving DecidableEq, Repr

/-- One chunk written to the output file: a verbatim text chunk, one averaged
data record (timestamp and 8 channel values), or one statistics line
(label and 8 channel values). -/
inductive Wr where
  | raw : String → Wr
  | record : String → (Fin 8 → ℚ) → Wr
  | statLine : String → (Fin 8 → ℚ) → Wr

/-- Split a character list at every occurrence of the character with
codepoint `sep`; `acc` holds the current piece reversed. -/
def splitCodeAux (sep : Nat) : List Char → List Char → List String
  | [], acc => [String.mk acc.reverse]
  | c :: cs, acc =>
    if c.toNat = sep then String.mk acc.reverse :: splitCodeAux sep cs []
    else splitCodeAux sep cs (c :: acc)

/-- Split a line on the `","` delimiter (codepoint 44) of the source,
mirroring the Python `fileLine.split(dilimiter)`. -/
def splitComma (s : String) : List String :=
  splitCodeAux 44 s.toList []

/-- The lines of a text: split at every newline (codepoint 10). -/
def textLines (s : String) : List String :=
  splitCodeAux 10 s.toList []

/-- Whitespace stripped by Python `int()`: space, tab, newline, carriage
return, vertical tab, form feed (by codepoint). -/
def isPySpace (c : Char) : Bool :=
  c.toNat == 32 || c.toNat == 9 || c.toNat == 10 ||
    c.toNat == 13 || c.toNat == 11 || c.toNat == 12

/-- Strip leading and trailing whitespace from a character list. -/
def stripChars (cs : List Char) : List Char :=
  ((cs.dropWhile isPySpace).reverse.dropWhile isPySpace).reverse

/-- Value of a nonempty all-digit character list, base 10; `none` otherwise. -/
def digitsVal (cs : List Char) : Option Nat :=
  if cs = [] then none
  else if cs.all Char.isDigit then
    some (cs.foldl (fun a c => a * 10 + (c.toNat - 48)) 0)
  else none

/-- Python `int(s)`: strip surrounding whitespace, then an optional sign
(codepoint 45 is the minus sign, 43 the plus sign) followed by a nonempty
digit string.  Pythonic extras that no claim touches (underscore digit
grouping, non-ASCII digits) are not modelled. -/
def pyInt (s : String) : Option Int :=
  match stripChars s.toList with
  | [] => none
  | c :: cs =>
    if c.toNat = 45 then (digitsVal cs).map (fun m => -(m : Int))
    else if c.toNat = 43 then (digitsVal cs).map (fun m => (m : Int))
    else (digitsVal (c :: cs)).map (fun m => (m : Int))

/-- `int(lineSections[i])`: `IndexError` when the row has no field `i`,
`ValueError` (carrying the field text) when the field is not an integer. -/
def getField (secs : List String) (i : Nat) : Except PPErr Int :=
  match secs[i]? with
  | none => .error .indexError
  | some s =>
    match pyInt s with
    | none => .error (.valueError s)
    | some v => .ok v

/-- The loop `for i in range(1, 9): int(lineSections[i])` starting at field
index `i` with `k` fields still to read, failing at the first bad field. -/
def readVals (secs : List String) : Nat → Nat → Except PPErr (List Int)
  | _, 0 => .ok []
  | i, k + 1 =>
    match getField secs i with
    | .error e => .error e
    | .ok v =>
      match readVals secs (i + 1) k with
      | .error e => .error e
      | .ok vs => .ok (v :: vs)

/-- Split one raw file line (newline included) on the delimiter and parse
fields 1..8 as integers; field 0 is the timestamp, copied not parsed. -/
def parseLine (fileLine : String) : Except PPErr (String × (Fin 8 → Int)) :=
  let secs := splitComma fileLine
  match readVals secs 1 8 with
  | .error e => .error e
  | .ok vs => .ok (secs.headD "", fun i => vs.getD (i : Nat) 0)

/-- The mutable state of one `post_process_resample` call: the accumulating
stripe (`procData`, split into its timestamp slot and its 8 numeric slots),
the stripe counters, the summary arrays and the chunks written so far. -/
structure PPState where
  procTime : String
  procVals : Fin 8 → ℚ
  stripeCount : Nat
  averaged : Nat
  maxData : Fin 8 → ℚ
  minData : Fin 8 → ℚ
  aveData : Fin 8 → ℚ
  written : List Wr

/-- Initial state: `procData = [0,...,0]` (the timestamp slot holds the
integer 0, rendered "0"), `maxData = [0]*8`, `minData = [999999]*8`,
`aveData = [0]*8`, counters zero, nothing written. -/
def initState : PPState :=
  { procTime := "0"
    procVals := fun _ => 0
    stripeCount := 0
    averaged := 0
    maxData := fun _ => 0
    minData := fun _ => (999999 : ℚ)
    aveData := fun _ => 0
    written := [] }

/-- The header branch `postFile.write(fileLine + "\n")`: `fileLine` retains
its own newline, so the chunk written is the line followed by two newlines. -/
def writeHeader (st : PPState) (l : String) : PPState :=
  { st with written := st.written ++ [Wr.raw (l ++ "\n" ++ "\n")] }

/-- Closing a full stripe: divide the sums by `resample_count`, write the
output record, fold it into the max/min/ave summaries, and reset `procData`
and `stripeCount`. -/
def emit (n : Nat) (st : PPState) : PPState :=
  let avg : Fin 8 → ℚ := fun i => st.procVals i / (n : ℚ)
  { procTime := "0"
    procVals := fun _ => 0
    stripeCount := 0
    averaged := st.averaged + 1
    maxData := fun i => if avg i > st.maxData i then avg i else st.maxData i
    minData := fun i => if avg i < st.minData i then avg i else st.minData i
    aveData := fun i => st.aveData i + avg i
    written := st.written ++ [Wr.record st.procTime avg] }

/-- Processing of one data line: split, record the timestamp, add the parsed
fields into the sums, bump `stripeCount`, and close the stripe when it
reaches `resample_count`. -/
def stepLine (n : Nat) (st : PPState) (l : String) : Except PPErr PPState :=
  match parseLine (l ++ "\n") with
  | .error e => .error e
  | .ok (t, v) =>
    let st1 : PPState :=
      { st with
        procTime := t
        procVals := fun i => st.procVals i + (v i : ℚ)
        stripeCount := st.stripeCount + 1 }
    if st1.stripeCount = n then .ok (emit n st1) else .ok st1

/-- The main loop over the input lines, carrying the `headerLines` counter:
the first two lines are copied as headers, every later line goes through
`stepLine`; a raised exception stops the loop with the state reached. -/
def runLines (n : Nat) : Nat → PPState → List String → PPState × Option PPErr
  | _, st, [] => (st, none)
  | hl, st, l :: ls =>
    if hl < 2 then runLines n (hl + 1) (writeHeader st l) ls
    else
      match stepLine n st l with
      | .error e => (st, some e)
      | .ok st1 => runLines n hl st1 ls

/-- End of the loop: divide the accumulated averages by the output stripe
count (raising `ZeroDivisionError` when it is zero, before anything more is
written) and append the statistics block. -/
def finalize (st : PPState) : PPState × Option PPErr :=
  if st.averaged = 0 then (st, some .zeroDivisionError)
  else
    let ave : Fin 8 → ℚ := fun i => st.aveData i / (st.averaged : ℚ)
    ({ st with
        aveData := ave
        written := st.written ++
          [Wr.raw ("\n" ++ "\n" ++ "STATISTICS" ++ "\n"),
           Wr.statLine "MAX" st.maxData,
           Wr.statLine "MIN" st.minData,
           Wr.statLine "AVE" ave] }, none)

/-- The whole `post_process_resample` call on the lines of the raw file:
the loop followed by the statistics epilogue; the written chunks reached at
the point of a failure are kept (the output file holds them). -/
def post_process_resample (lines : List String) (resample_count : Nat) :
    PPState × Option PPErr :=
  match runLines resample_count 0 initState lines with
  | (st, some e) => (st, some e)
  | (st, none) => finalize st

/-- The output records among the written chunks, in order. -/
def outRecords (ws : List Wr) : List (String × (Fin 8 → ℚ)) :=
  ws.filterMap fun w =>
    match w with
    | .record t v => some (t, v)
    | _ => none

/-- The per-channel value vectors of the output records, in order. -/
def recsOf (ws : List Wr) : List (Fin 8 → ℚ) :=
  (outRecords ws).map Prod.snd

/-- A data line is well formed when its processing raises no exception. -/
def pOK (l : String) : Bool :=
  match parseLine (l ++ "\n") with
  | .ok _ => true
  | .error _ => false

/-- Parsed channel values of a well-formed data line (0 on a bad line). -/
def lineVals (l : String) : Fin 8 → Int :=
  match parseLine (l ++ "\n") with
  | .ok (_, v) => v
  | .error _ => fun _ => 0

/-- Timestamp field of a data line (empty on a bad line). -/
def timeOf (l : String) : String :=
  match parseLine (l ++ "\n") with
  | .ok (t, _) => t
  | .error _ => ""

/-- Pure accumulation effect of one data line on the state (no emission, no
failure): what the sum/timestamp/counter updates of the loop body do. -/
def accumLine (st : PPState) (l : String) : PPState :=
  match parseLine (l ++ "\n") with
  | .error _ => st
  | .ok (t, v) =>
    { st with
      procTime := t
      procVals := fun i => st.procVals i + (v i : ℚ)
      stripeCount := st.stripeCount + 1 }

/-- The complete windows of the data rows: consecutive chunks of size `n`;
a trailing chunk shorter than `n` is not a window. -/
def windows (n : Nat) (data : List String) : List (List String) :=
  if h : n = 0 ∨ data.length < n then []
  else data.take n :: windows n (data.drop n)
termination_by data.length
decreasing_by
  push_neg at h
  simp only [List.length_drop]
  omega

/-- Exact rational sum of one channel across the rows of a window. -/
def wsumQ (w : List String) (i : Fin 8) : ℚ :=
  (w.map fun l => ((lineVals l i : Int) : ℚ)).sum

/-- The output record a complete window produces: the timestamp of its last
row and each channel sum divided by `resample_count`. -/
def recOf (n : Nat) (w : List String) : Wr :=
  Wr.record (timeOf (w.getLastD "")) (fun i => wsumQ w i / (n : ℚ))

/-- Rendering of a numeric value in the output text, modelling Python `str`
on the float result: exact for integral values (`str(3.0)` is `"3.0"`);
non-integral values are rendered from the exact rational, an idealisation of
the float repr (no claim depends on a non-integral rendering). -/
def numStr (q : ℚ) : String :=
  if q.den = 1 then toString q.num ++ ".0" else toString q

/-- The `dilimiter.join(...)` of the source, with the `","` delimiter. -/
def joinComma : List String → String
  | [] => ""
  | [s] => s
  | s :: ss => s ++ "," ++ joinComma ss

/-- Text of one written chunk. -/
def wrText : Wr → String
  | .raw s => s
  | .record t vs => joinComma (t :: (List.ofFn vs).map numStr) ++ "\n"
  | .statLine lab vs =>
      lab ++ "," ++ joinComma ((List.ofFn vs).map numStr) ++ "\n"

/-- Full text of the output file: the written chunks in order. -/
def outputText (ws : List Wr) : String :=
  (ws.map wrText).foldl (fun a s => a ++ s) ""

/-- Maximum update step of the summary loop. -/
def maxQ (a x : ℚ) : ℚ := if x > a then x else a

/-- Minimum update step of the summary loop. -/
def minQ (a x : ℚ) : ℚ := if x < a then x else a

/-- Equality of everything an emitted record or a summary can observe:
the stripe accumulator (`procTime`, `procVals`, `stripeCount`) is excluded,
being transient scratch state. -/
def observablesEq (a b : PPState) : Prop :=
  a.averaged = b.averaged ∧ a.maxData = b.maxData ∧ a.minData = b.minData ∧
    a.aveData = b.aveData ∧ a.written = b.written

/-- The summary fields are exactly the fold of the per-channel record values
written so far, and `averaged` counts the records. -/
def statsOK (st : PPState) : Prop :=
  st.averaged = (recsOf st.written).length ∧
  (∀ i, st.maxData i = ((recsOf st.written).map fun v => v i).foldl maxQ 0) ∧
  (∀ i, st.minData i = ((recsOf st.written).map fun v => v i).foldl minQ 999999) ∧
  (∀ i, st.aveData i = ((recsOf st.written).map fun v => v i).sum)

/-- State after the two header lines have been copied. -/
def headerState (h1 h2 : String) : PPState :=
  { initState with
      written := [Wr.raw (h1 ++ "\n" ++ "\n"), Wr.raw (h2 ++ "\n" ++ "\n")] }

/-! Basic lemmas about line parsing and the accumulation step. -/

theorem parseLine_of_pOK {l : String} (h : pOK l = true) :
    parseLine (l ++ "\n") = .ok (timeOf l, lineVals l) := by
  cases hp : parseLine (l ++ "\n") with
  | error e => simp [pOK, hp] at h
  | ok p =>
    obtain ⟨t, v⟩ := p
    simp only [timeOf, lineVals, hp]

theorem accumLine_of_pOK {l : String} (st : PPState) (h : pOK l = true) :
    accumLine st l =
      { st with
        procTime := timeOf l
        procVals := fun i => st.procVals i + ((lineVals l i : Int) : ℚ)
        stripeCount := st.stripeCount + 1 } := by
  simp [accumLine, parseLine_of_pOK h]

theorem stepLine_of_pOK {l : String} (n : Nat) (st : PPState) (h : pOK l = true) :
    stepLine n st l =
      if st.stripeCount + 1 = n then .ok (emit n (accumLine st l))
      else .ok (accumLine st l) := by
  rw [stepLine, parseLine_of_pOK h, accumLine_of_pOK st h]

theorem stepLine_of_err {l : String} {e : PPErr} (n : Nat) (st : PPState)
    (hp : parseLine (l ++ "\n") = .error e) : stepLine n st l = .error e := by
  simp [stepLine, hp]

theorem accumLine_written (st : PPState) (l : String) :
    (accumLine st l).written = st.written := by
  unfold accumLine; split <;> rfl

theorem accumLine_averaged (st : PPState) (l : String) :
    (accumLine st l).averaged = st.averaged := by
  unfold accumLine; split <;> rfl

theorem accumLine_maxData (st : PPState) (l : String) :
    (accumLine st l).maxData = st.maxData := by
  unfold accumLine; split <;> rfl

theorem accumLine_minData (st : PPState) (l : String) :
    (accumLine st l).minData = st.minData := by
  unfold accumLine; split <;> rfl

theorem accumLine_aveData (st : PPState) (l : String) :
    (accumLine st l).aveData = st.aveData := by
  unfold accumLine; split <;> rfl

theorem foldlAccum_written (w : List String) :
    ∀ st : PPState, (List.foldl accumLine st w).written = st.written := by
  induction w with
  | nil => intro st; rfl
  | cons l w ih => intro st; rw [List.foldl_cons, ih, accumLine_written]

theorem foldlAccum_averaged (w : List String) :
    ∀ st : PPState, (List.foldl accumLine st w).averaged = st.averaged := by
  induction w with
  | nil => intro st; rfl
  | cons l w ih => intro st; rw [List.foldl_cons, ih, accumLine_averaged]

theorem foldlAccum_maxData (w : List String) :
    ∀ st : PPState, (List.foldl accumLine st w).maxData = st.maxData := by
  induction w with
  | nil => intro st; rfl
  | cons l w ih => intro st; rw [List.foldl_cons, ih, accumLine_maxData]

theorem foldlAccum_minData (w : List String) :
    ∀ st : PPState, (List.foldl accumLine st w).minData = st.minData := by
  induction w with
  | nil => intro st; rfl
  | cons l w ih => intro st; rw [List.foldl_cons, ih, accumLine_minData]

theorem foldlAccum_aveData (w : List String) :
    ∀ st : PPState, (List.foldl accumLine st w).aveData = st.aveData := by
  induction w with
  | nil => intro st; rfl
  | cons l w ih => intro st; rw [List.foldl_cons, ih, accumLine_aveData]

theorem foldlAccum_stripe (w : List String) :
    ∀ st : PPState, (∀ l ∈ w, pOK l = true) →
      (List.foldl accumLine st w).stripeCount = st.stripeCount + w.length := by
  induction w with
  | nil => intro st h; simp
  | cons l w ih =>
    intro st h
    rw [List.foldl_cons, ih _ fun x hx => h x (List.mem_cons_of_mem _ hx)]
    rw [accumLine_of_pOK st (h l (List.mem_cons_self _ _))]
    simp
    omega

theorem foldlAccum_vals (w : List String) :
    ∀ st : PPState, (∀ l ∈ w, pOK l = true) → ∀ i,
      (List.foldl accumLine st w).procVals i =
        st.procVals i + (w.map fun l => ((lineVals l i : Int) : ℚ)).sum := by
  induction w with
  | nil => intro st h i; simp
  | cons l w ih =>
    intro st h i
    rw [List.foldl_cons, ih _ fun x hx => h x (List.mem_cons_of_mem _ hx)]
    rw [accumLine_of_pOK st (h l (List.mem_cons_self _ _))]
    simp [add_assoc]

theorem foldlAccum_time (w : List String) :
    ∀ st : PPState, (∀ l ∈ w, pOK l = true) →
      (List.foldl accumLine st w).procTime = (w.map timeOf).getLastD st.procTime := by
  induction w with
  | nil => intro st h; rfl
  | cons l w ih =>
    intro st h
    rw [List.foldl_cons, ih _ fun x hx => h x (List.mem_cons_of_mem _ hx)]
    rw [accumLine_of_pOK st (h l (List.mem_cons_self _ _))]
    simp only [List.map_cons, List.getLastD_cons]

/-! Unfolding lemmas for the main loop. -/

theorem runLines_nil (n hl : Nat) (st : PPState) : runLines n hl st [] = (st, none) := rfl

theorem runLines_header {hl : Nat} (n : Nat) (st : PPState) (l : String)
    (ls : List String) (h : hl < 2) :
    runLines n hl st (l :: ls) = runLines n (hl + 1) (writeHeader st l) ls := by
  simp [runLines, h]

theorem runLines_data_err {l : String} {e : PPErr} (n : Nat) (st : PPState)
    (ls : List String) (hp : parseLine (l ++ "\n") = .error e) :
    runLines n 2 st (l :: ls) = (st, some e) := by
  simp [runLines, stepLine_of_err n st hp]

theorem runLines_data_ok {l : String} (n : Nat) (st : PPState) (ls : List String)
    (hok : pOK l = true) :
    runLines n 2 st (l :: ls) =
      if st.stripeCount + 1 = n then runLines n 2 (emit n (accumLine st l)) ls
      else runLines n 2 (accumLine st l) ls := by
  have h2 : ¬ (2 : Nat) < 2 := by omega
  simp only [runLines, if_neg h2, stepLine_of_pOK n st hok]
  by_cases hc : st.stripeCount + 1 = n
  · simp [hc]
  · simp [hc]

theorem runLines_two_headers (n : Nat) (h1 h2 : String) (rest : List String) :
    runLines n 0 initState (h1 :: h2 :: rest) = runLines n 2 (headerState h1 h2) rest := by
  rw [runLines_header n initState h1 _ (by omega),
      runLines_header n _ h2 _ (by omega)]
  rfl

theorem runLines_append (n : Nat) (xs : List String) :
    ∀ (st : PPState) (ys : List String), (runLines n 2 st xs).2 = none →
      runLines n 2 st (xs ++ ys) = runLines n 2 (runLines n 2 st xs).1 ys := by
  induction xs with
  | nil => intro st ys h; simp [runLines_nil]
  | cons l xs ih =>
    intro st ys h
    rw [List.cons_append]
    have h2 : ¬ (2 : Nat) < 2 := by omega
    simp only [runLines, if_neg h2] at h ⊢
    cases hs : stepLine n st l with
    | error e => rw [hs] at h; simp at h
    | ok st1 =>
      rw [hs] at h
      simpa [hs] using ih st1 ys h

theorem runLines_append_err (n : Nat) (xs : List String) :
    ∀ (st : PPState) (ys : List String) (e : PPErr), (runLines n 2 st xs).2 = some e →
      runLines n 2 st (xs ++ ys) = runLines n 2 st xs := by
  induction xs with
  | nil => intro st ys e h; simp [runLines_nil] at h
  | cons l xs ih =>
    intro st ys e h
    rw [List.cons_append]
    have h2 : ¬ (2 : Nat) < 2 := by omega
    simp only [runLines, if_neg h2] at h ⊢
    cases hs : stepLine n st l with
    | error e1 => simp [hs]
    | ok st1 =>
      rw [hs] at h
      simpa [hs] using ih st1 ys e h

/-! The loop on a run of data lines: a partial trailing window only
accumulates; a full window accumulates and emits. -/

theorem run_trailing (n : Nat) (data : List String) :
    ∀ st : PPState, (∀ l ∈ data, pOK l = true) → st.stripeCount + data.length < n →
      runLines n 2 st data = (List.foldl accumLine st data, none) := by
  induction data with
  | nil => intro st h hlt; rfl
  | cons l ds ih =>
    intro st h hlt
    have hl0 : pOK l = true := h l (List.mem_cons_self _ _)
    have hds : ∀ x ∈ ds, pOK x = true := fun x hx => h x (List.mem_cons_of_mem _ hx)
    have hcount : (accumLine st l).stripeCount = st.stripeCount + 1 := by
      rw [accumLine_of_pOK st hl0]
    have hne : ¬ st.stripeCount + 1 = n := by
      simp only [List.length_cons] at hlt; omega
    rw [runLines_data_ok n st ds hl0, if_neg hne, List.foldl_cons]
    refine ih _ hds ?_
    rw [hcount]
    simp only [List.length_cons] at hlt
    omega

theorem run_window (n : Nat) (w : List String) :
    ∀ (st : PPState) (rest : List String), (∀ l ∈ w, pOK l = true) → w ≠ [] →
      st.stripeCount + w.length = n →
      runLines n 2 st (w ++ rest) =
        runLines n 2 (emit n (List.foldl accumLine st w)) rest := by
  induction w with
  | nil => intro st rest h hne hcnt; exact absurd rfl hne
  | cons l ws ih =>
    intro st rest h hne hcnt
    have hl0 : pOK l = true := h l (List.mem_cons_self _ _)
    have hws : ∀ x ∈ ws, pOK x = true := fun x hx => h x (List.mem_cons_of_mem _ hx)
    have hacc : (accumLine st l).stripeCount = st.stripeCount + 1 := by
      rw [accumLine_of_pOK st hl0]
    rw [List.cons_append, runLines_data_ok n st (ws ++ rest) hl0]
    cases ws with
    | nil =>
      have hix : st.stripeCount + 1 = n := by simpa using hcnt
      rw [if_pos hix]
      rfl
    | cons b bs =>
      have hne2 : ¬ st.stripeCount + 1 = n := by
        simp only [List.length_cons] at hcnt; omega
      rw [if_neg hne2, List.foldl_cons]
      refine ih (accumLine st l) rest hws (by simp) ?_
      rw [hacc]
      simp only [List.length_cons] at hcnt ⊢
      omega

/-! Lemmas about the window decomposition of the data rows. -/

theorem windows_nil (n : Nat) : windows n [] = [] := by
  rw [windows]
  split
  · rfl
  · rename_i h
    exfalso
    apply h
    simp only [List.length_nil]
    omega

theorem windows_small {n : Nat} {data : List String} (h : data.length < n) :
    windows n data = [] := by
  rw [windows]
  exact dif_pos (Or.inr h)

theorem windows_step {n : Nat} {data : List String} (hn : n ≠ 0) (h : n ≤ data.length) :
    windows n data = data.take n :: windows n (data.drop n) := by
  rw [windows]
  exact dif_neg (by push_neg; exact ⟨hn, by omega⟩)

theorem windows_length (n : Nat) (hn : 1 ≤ n) :
    ∀ (k : Nat) (data : List String), data.length ≤ k →
      (windows n data).length = data.length / n := by
  intro k
  induction k with
  | zero =>
    intro data h
    have hd : data = [] := List.length_eq_zero.mp (by omega)
    subst hd
    simp [windows_nil]
  | succ k ih =>
    intro data h
    by_cases hlt : data.length < n
    · rw [windows_small hlt]
      simp [Nat.div_eq_of_lt hlt]
    · push_neg at hlt
      rw [windows_step (by omega) hlt]
      simp only [List.length_cons]
      rw [ih (data.drop n) (by simp only [List.length_drop]; omega)]
      rw [List.length_drop]
      conv_rhs => rw [Nat.div_eq]
      rw [if_pos ⟨by omega, hlt⟩]

theorem windows_mem (n : Nat) (hn : 1 ≤ n) :
    ∀ (k : Nat) (data w : List String), data.length ≤ k → w ∈ windows n data →
      w.length = n ∧ ∀ l ∈ w, l ∈ data := by
  intro k
  induction k with
  | zero =>
    intro data w h hw
    have hd : data = [] := List.length_eq_zero.mp (by omega)
    subst hd
    rw [windows_nil] at hw
    simp at hw
  | succ k ih =>
    intro data w h hw
    by_cases hlt : data.length < n
    · rw [windows_small hlt] at hw
      simp at hw
    · push_neg at hlt
      rw [windows_step (by omega) hlt] at hw
      rcases List.mem_cons.mp hw with hw | hw
      · subst hw
        refine ⟨by simp [List.length_take]; omega, ?_⟩
        exact fun l hl => List.take_subset n data hl
      · obtain ⟨hlen, hsub⟩ := ih (data.drop n) w
          (by simp only [List.length_drop]; omega) hw
        exact ⟨hlen, fun l hl => List.drop_subset n data (hsub l hl)⟩

theorem windows_take (n : Nat) (hn : 1 ≤ n) :
    ∀ (k : Nat) (data : List String), data.length ≤ k →
      windows n (data.take (n * (data.length / n))) = windows n data := by
  intro k
  induction k with
  | zero =>
    intro data h
    have hd : data = [] := List.length_eq_zero.mp (by omega)
    subst hd
    simp [windows_nil]
  | succ k ih =>
    intro data h
    by_cases hlt : data.length < n
    · rw [Nat.div_eq_of_lt hlt]
      simp only [Nat.mul_zero, List.take_zero]
      rw [windows_nil, windows_small hlt]
    · push_neg at hlt
      have hkey : n * (data.length / n) = n + n * ((data.length - n) / n) := by
        conv_lhs => rw [Nat.div_eq]
        rw [if_pos ⟨by omega, hlt⟩, Nat.mul_succ]
        omega
      rw [hkey, List.take_add]
      have h1 : (data.take n).length = n := by simp [List.length_take]; omega
      have h2 : n ≤ ((data.take n) ++ ((data.drop n).take (n * ((data.length - n) / n)))).length := by
        simp only [List.length_append, h1]
        omega
      rw [windows_step (by omega) h2]
      rw [List.take_left' h1, List.drop_left' h1]
      conv_rhs => rw [windows_step (show n ≠ 0 by omega) hlt]
      congr 1
      have h3 : (data.drop n).length ≤ k := by simp only [List.length_drop]; omega
      have h4 : n * ((data.drop n).length / n) = n * ((data.length - n) / n) := by
        rw [List.length_drop]
      rw [← h4]
      exact ih (data.drop n) h3

theorem windows_join (n : Nat) (hn : 1 ≤ n) :
    ∀ (k : Nat) (data : List String), data.length ≤ k →
      (windows n data).flatten = data.take (n * (data.length / n)) := by
  intro k
  induction k with
  | zero =>
    intro data h
    have hd : data = [] := List.length_eq_zero.mp (by omega)
    subst hd
    simp [windows_nil]
  | succ k ih =>
    intro data h
    by_cases hlt : data.length < n
    · rw [windows_small hlt, Nat.div_eq_of_lt hlt]
      simp
    · push_neg at hlt
      have hkey : n * (data.length / n) = n + n * ((data.length - n) / n) := by
        conv_lhs => rw [Nat.div_eq]
        rw [if_pos ⟨by omega, hlt⟩, Nat.mul_succ]
        omega
      rw [windows_step (by omega) hlt]
      simp only [List.flatten_cons]
      rw [ih (data.drop n) (by simp only [List.length_drop]; omega)]
      rw [hkey, List.take_add, List.length_drop]

theorem windows_one :
    ∀ (k : Nat) (data : List String), data.length ≤ k →
      windows 1 data = data.map (fun l => [l]) := by
  intro k
  induction k with
  | zero =>
    intro data h
    have hd : data = [] := List.length_eq_zero.mp (by omega)
    subst hd
    simp [windows_nil]
  | succ k ih =>
    intro data h
    cases data with
    | nil => simp [windows_nil]
    | cons l ds =>
      have h1 : (l :: ds).take 1 = [l] := rfl
      have h2 : (l :: ds).drop 1 = ds := rfl
      rw [windows_step (by omega) (by simp), h1, h2, List.map_cons,
        ih ds (by simp only [List.length_cons] at h; omega)]

/-! Helpers about the last element of a list. -/

theorem getLastD_ne_nil {α : Type} (w : List α) (hne : w ≠ []) (d e : α) :
    w.getLastD d = w.getLastD e := by
  cases w with
  | nil => exact absurd rfl hne
  | cons a as => rw [List.getLastD_cons, List.getLastD_cons]

theorem getLastD_map {α β : Type} (f : α → β) (w : List α) (d : α) :
    (w.map f).getLastD (f d) = f (w.getLastD d) := by
  induction w generalizing d with
  | nil => rfl
  | cons a as ih =>
    rw [List.map_cons, List.getLastD_cons, List.getLastD_cons]
    exact ih a

/-! Projection lemmas for `emit`. -/

theorem emit_written (n : Nat) (st : PPState) :
    (emit n st).written =
      st.written ++ [Wr.record st.procTime (fun i => st.procVals i / (n : ℚ))] := rfl

theorem emit_stripe (n : Nat) (st : PPState) : (emit n st).stripeCount = 0 := rfl

theorem emit_vals (n : Nat) (st : PPState) : (emit n st).procVals = fun _ => 0 := rfl

theorem emit_averaged (n : Nat) (st : PPState) :
    (emit n st).averaged = st.averaged + 1 := rfl

theorem emit_maxData (n : Nat) (st : PPState) :
    (emit n st).maxData = fun i => maxQ (st.maxData i) (st.procVals i / (n : ℚ)) := rfl

theorem emit_minData (n : Nat) (st : PPState) :
    (emit n st).minData = fun i => minQ (st.minData i) (st.procVals i / (n : ℚ)) := rfl

theorem emit_aveData (n : Nat) (st : PPState) :
    (emit n st).aveData = fun i => st.aveData i + st.procVals i / (n : ℚ) := rfl

theorem emit_foldl (n : Nat) (st : PPState) (w : List String)
    (hok : ∀ l ∈ w, pOK l = true) (hne : w ≠ []) (hv0 : st.procVals = fun _ => 0) :
    (emit n (List.foldl accumLine st w)).written = st.written ++ [recOf n w] := by
  rw [emit_written, foldlAccum_written]
  have ht : (List.foldl accumLine st w).procTime = timeOf (w.getLastD "") := by
    rw [foldlAccum_time w st hok]
    have hmne : w.map timeOf ≠ [] := by
      intro hc
      exact hne (List.map_eq_nil_iff.mp hc)
    rw [getLastD_ne_nil _ hmne st.procTime (timeOf "")]
    exact getLastD_map timeOf w ""
  have hv : (fun i => (List.foldl accumLine st w).procVals i / (n : ℚ))
      = fun i => wsumQ w i / (n : ℚ) := by
    funext i
    rw [foldlAccum_vals w st hok i, hv0]
    simp [wsumQ]
  rw [ht, hv]
  rfl

/-! The main loop on a run of well-formed data lines emits exactly the
records of the complete windows and never fails. -/

theorem mainRun (n : Nat) (hn : 1 ≤ n) :
    ∀ (k : Nat) (data : List String) (st : PPState), data.length ≤ k →
      (∀ l ∈ data, pOK l = true) → st.stripeCount = 0 → st.procVals = (fun _ => 0) →
      (runLines n 2 st data).2 = none ∧
      (runLines n 2 st data).1.written = st.written ++ (windows n data).map (recOf n) := by
  intro k
  induction k with
  | zero =>
    intro data st hlen hok h0 hv
    have hd : data = [] := List.length_eq_zero.mp (by omega)
    subst hd
    simp [runLines_nil, windows_nil]
  | succ k ih =>
    intro data st hlen hok h0 hv
    by_cases hlt : data.length < n
    · rw [run_trailing n data st hok (by omega)]
      simp [windows_small hlt, foldlAccum_written]
    · push_neg at hlt
      have htok : ∀ l ∈ data.take n, pOK l = true :=
        fun l hl => hok l (List.take_subset n data hl)
      have hdok : ∀ l ∈ data.drop n, pOK l = true :=
        fun l hl => hok l (List.drop_subset n data hl)
      have htlen : (data.take n).length = n := by
        simp [List.length_take]
        omega
      have htne : data.take n ≠ [] := by
        intro hc
        rw [hc] at htlen
        simp at htlen
        omega
      have hrun : runLines n 2 st data =
          runLines n 2 (emit n (List.foldl accumLine st (data.take n))) (data.drop n) := by
        conv_lhs => rw [← List.take_append_drop n data]
        refine run_window n (data.take n) st (data.drop n) htok htne ?_
        rw [h0, htlen]
        omega
      obtain ⟨he, hw⟩ := ih (data.drop n)
        (emit n (List.foldl accumLine st (data.take n)))
        (by simp only [List.length_drop]; omega) hdok rfl rfl
      rw [hrun]
      refine ⟨he, ?_⟩
      rw [hw, emit_foldl n st (data.take n) htok htne hv]
      rw [windows_step (by omega) hlt, List.map_cons]
      simp [List.append_assoc]

/-! Lemmas about the output records contained in the written chunks. -/

theorem outRecords_append (a b : List Wr) :
    outRecords (a ++ b) = outRecords a ++ outRecords b := by
  simp [outRecords]

theorem outRecords_raw (s : String) : outRecords [Wr.raw s] = [] := rfl

theorem outRecords_record (t : String) (v : Fin 8 → ℚ) :
    outRecords [Wr.record t v] = [(t, v)] := rfl

theorem outRecords_statLine (lab : String) (v : Fin 8 → ℚ) :
    outRecords [Wr.statLine lab v] = [] := rfl

theorem outRecords_map_recOf (n : Nat) (ws : List (List String)) :
    outRecords (ws.map (recOf n)) =
      ws.map fun w => (timeOf (w.getLastD ""), fun i => wsumQ w i / (n : ℚ)) := by
  induction ws with
  | nil => rfl
  | cons w ws ih =>
    simp only [List.map_cons]
    rw [show recOf n w :: List.map (recOf n) ws = [recOf n w] ++ List.map (recOf n) ws
      from rfl]
    rw [outRecords_append, ih]
    rfl

/-! The summary arrays are at all times the fold of the emitted record
values: an invariant of the main loop. -/

theorem statsOK_initState : statsOK initState :=
  ⟨rfl, fun _ => rfl, fun _ => rfl, fun _ => rfl⟩

theorem statsOK_headerState (h1 h2 : String) : statsOK (headerState h1 h2) :=
  ⟨rfl, fun _ => rfl, fun _ => rfl, fun _ => rfl⟩

theorem statsOK_writeHeader (st : PPState) (l : String) (h : statsOK st) :
    statsOK (writeHeader st l) := by
  obtain ⟨ha, hmax, hmin, hsum⟩ := h
  have hrec : recsOf (st.written ++ [Wr.raw (l ++ "\n" ++ "\n")]) = recsOf st.written := by
    simp [recsOf, outRecords_append, outRecords_raw]
  refine ⟨?_, fun i => ?_, fun i => ?_, fun i => ?_⟩ <;>
    simp only [writeHeader, hrec]
  · exact ha
  · exact hmax i
  · exact hmin i
  · exact hsum i

theorem statsOK_accumLine (st : PPState) (l : String) (h : statsOK st) :
    statsOK (accumLine st l) := by
  obtain ⟨ha, hmax, hmin, hsum⟩ := h
  refine ⟨?_, fun i => ?_, fun i => ?_, fun i => ?_⟩ <;>
    rw [accumLine_written]
  · rw [accumLine_averaged]; exact ha
  · rw [accumLine_maxData]; exact hmax i
  · rw [accumLine_minData]; exact hmin i
  · rw [accumLine_aveData]; exact hsum i

theorem statsOK_emit (n : Nat) (st : PPState) (h : statsOK st) :
    statsOK (emit n st) := by
  obtain ⟨ha, hmax, hmin, hsum⟩ := h
  have hrec : recsOf (emit n st).written =
      recsOf st.written ++ [fun i => st.procVals i / (n : ℚ)] := by
    rw [emit_written]
    simp [recsOf, outRecords_append, outRecords_record]
  refine ⟨?_, fun i => ?_, fun i => ?_, fun i => ?_⟩
  · rw [emit_averaged, hrec]
    simp [ha]
  · rw [emit_maxData, hrec]
    simp only [List.map_append, List.foldl_append, List.map_cons, List.map_nil,
      List.foldl_cons, List.foldl_nil]
    rw [hmax i]
  · rw [emit_minData, hrec]
    simp only [List.map_append, List.foldl_append, List.map_cons, List.map_nil,
      List.foldl_cons, List.foldl_nil]
    rw [hmin i]
  · rw [emit_aveData, hrec]
    simp only [List.map_append, List.sum_append, List.map_cons, List.map_nil,
      List.sum_cons, List.sum_nil]
    rw [hsum i]
    ring

theorem statsOK_stepLine (n : Nat) (st : PPState) (l : String) (st1 : PPState)
    (hs : stepLine n st l = .ok st1) (h : statsOK st) : statsOK st1 := by
  cases hp : parseLine (l ++ "\n") with
  | error e =>
    rw [stepLine_of_err n st hp] at hs
    simp at hs
  | ok p =>
    have hpok : pOK l = true := by simp [pOK, hp]
    rw [stepLine_of_pOK n st hpok] at hs
    split at hs
    · cases hs
      exact statsOK_emit n _ (statsOK_accumLine st l h)
    · cases hs
      exact statsOK_accumLine st l h

theorem statsOK_run (n : Nat) (ls : List String) :
    ∀ (hl : Nat) (st : PPState), statsOK st → statsOK (runLines n hl st ls).1 := by
  induction ls with
  | nil => intro hl st h; exact h
  | cons l ls ih =>
    intro hl st h
    by_cases hh : hl < 2
    · rw [runLines_header n st l ls hh]
      exact ih (hl + 1) _ (statsOK_writeHeader st l h)
    · simp only [runLines, if_neg hh]
      cases hs : stepLine n st l with
      | error e => exact h
      | ok st1 => exact ih hl st1 (statsOK_stepLine n st l st1 hs h)

/-! Bounds on the folds that maintain the summary arrays. -/

theorem le_foldl_maxQ (l : List ℚ) : ∀ b : ℚ, b ≤ l.foldl maxQ b := by
  induction l with
  | nil => intro b; simp
  | cons x l ih =>
    intro b
    rw [List.foldl_cons]
    refine le_trans ?_ (ih (maxQ b x))
    unfold maxQ
    split
    · exact le_of_lt (by assumption)
    · exact le_refl b

theorem mem_le_foldl_maxQ (l : List ℚ) : ∀ (b x : ℚ), x ∈ l → x ≤ l.foldl maxQ b := by
  induction l with
  | nil => intro b x hx; simp at hx
  | cons a l ih =>
    intro b x hx
    rw [List.foldl_cons]
    rcases List.mem_cons.mp hx with rfl | hx
    · refine le_trans ?_ (le_foldl_maxQ l (maxQ b x))
      unfold maxQ
      split
      · exact le_refl x
      · exact le_of_not_lt (by assumption)
    · exact ih (maxQ b a) x hx

theorem foldl_minQ_le (l : List ℚ) : ∀ b : ℚ, l.foldl minQ b ≤ b := by
  induction l with
  | nil => intro b; simp
  | cons x l ih =>
    intro b
    rw [List.foldl_cons]
    refine le_trans (ih (minQ b x)) ?_
    unfold minQ
    split
    · exact le_of_lt (by assumption)
    · exact le_refl b

theorem foldl_minQ_le_mem (l : List ℚ) : ∀ (b x : ℚ), x ∈ l → l.foldl minQ b ≤ x := by
  induction l with
  | nil => intro b x hx; simp at hx
  | cons a l ih =>
    intro b x hx
    rw [List.foldl_cons]
    rcases List.mem_cons.mp hx with rfl | hx
    · refine le_trans (foldl_minQ_le l (minQ b x)) ?_
      unfold minQ
      split
      · exact le_refl x
      · exact le_of_not_lt (by assumption)
    · exact ih (minQ b a) x hx

theorem sum_le_len_mul (l : List ℚ) (b : ℚ) (h : ∀ x ∈ l, x ≤ b) :
    l.sum ≤ (l.length : ℚ) * b := by
  have := List.sum_le_card_nsmul l b h
  rwa [nsmul_eq_mul] at this

theorem len_mul_le_sum (l : List ℚ) (b : ℚ) (h : ∀ x ∈ l, b ≤ x) :
    (l.length : ℚ) * b ≤ l.sum := by
  have := List.card_nsmul_le_sum l b h
  rwa [nsmul_eq_mul] at this

/-! Unfolding lemmas for the epilogue. -/

theorem finalize_pos (st : PPState) (h : ¬ st.averaged = 0) :
    finalize st = ({ st with
        aveData := fun i => st.aveData i / (st.averaged : ℚ)
        written := st.written ++
          [Wr.raw ("\n" ++ "\n" ++ "STATISTICS" ++ "\n"),
           Wr.statLine "MAX" st.maxData, Wr.statLine "MIN" st.minData,
           Wr.statLine "AVE" (fun i => st.aveData i / (st.averaged : ℚ))] }, none) := by
  rw [finalize, if_neg h]

theorem finalize_zero (st : PPState) (h : st.averaged = 0) :
    finalize st = (st, some .zeroDivisionError) := by
  rw [finalize, if_pos h]

theorem outRecords_finalize (st : PPState) :
    outRecords (finalize st).1.written = outRecords st.written := by
  by_cases h : st.averaged = 0
  · rw [finalize_zero st h]
  · rw [finalize_pos st h]
    rw [outRecords_append]
    simp [outRecords]

theorem post_eq_none (lines : List String) (n : Nat)
    (h : (runLines n 0 initState lines).2 = none) :
    post_process_resample lines n = finalize (runLines n 0 initState lines).1 := by
  rcases hr : runLines n 0 initState lines with ⟨st, e⟩
  cases e with
  | none => simp [post_process_resample, hr]
  | some e1 => rw [hr] at h; simp at h

theorem post_eq_err (lines : List String) (n : Nat) (e : PPErr)
    (h : (runLines n 0 initState lines).2 = some e) :
    post_process_resample lines n = ((runLines n 0 initState lines).1, some e) := by
  rcases hr : runLines n 0 initState lines with ⟨st, e2⟩
  rw [hr] at h
  simp at h
  subst h
  simp [post_process_resample, hr]

/-- Full-input form of the loop characterization: two header lines followed
by well-formed data rows. -/
theorem run_full (n : Nat) (hn : 1 ≤ n) (h1 h2 : String) (data : List String)
    (hok : ∀ l ∈ data, pOK l = true) :
    (runLines n 0 initState (h1 :: h2 :: data)).2 = none ∧
    (runLines n 0 initState (h1 :: h2 :: data)).1.written =
      (headerState h1 h2).written ++ (windows n data).map (recOf n) := by
  rw [runLines_two_headers]
  exact mainRun n hn data.length data (headerState h1 h2) le_rfl hok rfl rfl

theorem eq_of_statsOK_written {a b : PPState} (ha : statsOK a) (hb : statsOK b)
    (hw : a.written = b.written) : observablesEq a b := by
  obtain ⟨ha1, ha2, ha3, ha4⟩ := ha
  obtain ⟨hb1, hb2, hb3, hb4⟩ := hb
  refine ⟨?_, funext fun i => ?_, funext fun i => ?_, funext fun i => ?_, hw⟩
  · rw [ha1, hb1, hw]
  · rw [ha2 i, hb2 i, hw]
  · rw [ha3 i, hb3 i, hw]
  · rw [ha4 i, hb4 i, hw]

theorem observablesEq_finalize {a b : PPState} (h : observablesEq a b) :
    observablesEq (finalize a).1 (finalize b).1 := by
  obtain ⟨e1, e2, e3, e4, e5⟩ := h
  by_cases hz : a.averaged = 0
  · rw [finalize_zero a hz, finalize_zero b (by rw [← e1]; exact hz)]
    exact ⟨e1, e2, e3, e4, e5⟩
  · have hz2 : ¬ b.averaged = 0 := by rw [← e1]; exact hz
    rw [finalize_pos a hz, finalize_pos b hz2]
    refine ⟨e1, e2, e3, ?_, ?_⟩
    · dsimp only
      rw [e4, e1]
    · dsimp only
      rw [e5, e2, e3, e4, e1]

/-- The parse failures a data line can raise: an `IndexError` (too few
fields) or a `ValueError` on the offending field text, never anything
carrying a position. -/
theorem getField_err_shape (secs : List String) (i : Nat) (e : PPErr)
    (h : getField secs i = .error e) :
    e = PPErr.indexError ∨ ∃ t, e = PPErr.valueError t := by
  unfold getField at h
  cases h2 : secs[i]? with
  | none =>
    simp only [h2] at h
    left
    cases h
    rfl
  | some s =>
    simp only [h2] at h
    cases h3 : pyInt s with
    | none =>
      simp only [h3] at h
      right
      cases h
      exact ⟨s, rfl⟩
    | some v =>
      simp only [h3] at h
      exact Except.noConfusion h

theorem readVals_err_shape (secs : List String) : ∀ (k i : Nat) (e : PPErr),
    readVals secs i k = .error e →
      e = PPErr.indexError ∨ ∃ t, e = PPErr.valueError t := by
  intro k
  induction k with
  | zero => intro i e h; simp [readVals] at h
  | succ k ih =>
    intro i e h
    rw [readVals] at h
    cases hg : getField secs i with
    | error e1 =>
      simp only [hg] at h
      cases h
      exact getField_err_shape secs i _ hg
    | ok v =>
      simp only [hg] at h
      cases hr : readVals secs (i + 1) k with
      | error e2 =>
        simp only [hr] at h
        cases h
        exact ih (i + 1) _ hr
      | ok vs =>
        simp only [hr] at h
        exact Except.noConfusion h

theorem parseLine_err_shape (s : String) (e : PPErr) (h : parseLine s = .error e) :
    e = PPErr.indexError ∨ ∃ t, e = PPErr.valueError t := by
  unfold parseLine at h
  cases hr : readVals (splitComma s) 1 8 with
  | error e1 =>
    simp only [hr] at h
    cases h
    exact readVals_err_shape (splitComma s) 8 1 _ hr
  | ok vs =>
    simp only [hr] at h
    exact Except.noConfusion h

/-! Concrete inputs used by the scenario claims and the witnesses. -/

/-- Three well-formed data rows. -/
def wData3 : List String :=
  ["T1,1,2,3,4,5,6,7,8", "T2,2,2,2,2,2,2,2,2", "T3,0,0,0,0,0,0,0,0"]

/-- Five well-formed data rows with channel 0 running 1..5. -/
def wData5 : List String :=
  ["T1,1,0,0,0,0,0,0,0", "T2,2,0,0,0,0,0,0,0", "T3,3,0,0,0,0,0,0,0",
   "T4,4,0,0,0,0,0,0,0", "T5,5,0,0,0,0,0,0,0"]

/-- The spec scenario: 2 header lines, 10 data rows, channel 0 = 1..10. -/
def c6Input : List String :=
  ["H1", "H2",
   "T1,1,0,0,0,0,0,0,0", "T2,2,0,0,0,0,0,0,0", "T3,3,0,0,0,0,0,0,0",
   "T4,4,0,0,0,0,0,0,0", "T5,5,0,0,0,0,0,0,0", "T6,6,0,0,0,0,0,0,0",
   "T7,7,0,0,0,0,0,0,0", "T8,8,0,0,0,0,0,0,0", "T9,9,0,0,0,0,0,0,0",
   "T10,10,0,0,0,0,0,0,0"]

/-- A minimal input whose headers differ, to exhibit the header copying. -/
def c4Input : List String := ["A,B", "C,D", "5,1,1,1,1,1,1,1,1"]

/-- An input whose only data line has ten fields (one too many). -/
def c9ExtraInput : List String := ["H1", "H2", "t,1,2,3,4,5,6,7,8,99"]

/-- The malformed line (non-integer field) placed at input line 3. -/
def c9BadEarly : List String :=
  ["H1", "H2", "t,x,2,3,4,5,6,7,8", "u,1,2,3,4,5,6,7,8"]

/-- The same malformed line placed at input line 4. -/
def c9BadLate : List String :=
  ["H1", "H2", "u,1,2,3,4,5,6,7,8", "t,x,2,3,4,5,6,7,8"]

/-! The claims. -/

/-- C1: for an input with 2 header lines and `D` well-formed data rows and
any `resample_count ≥ 1`, the loop raises nothing, emits exactly
`D / resample_count` output records, and the `D % resample_count` trailing
rows contribute nothing: everything observable (output count, max, min,
running sum then mean, and the chunks written) equals what the run on the
input truncated to its complete windows produces. -/
theorem C1_window_count (n : Nat) (hn : 1 ≤ n) (h1 h2 : String) (data : List String)
    (hok : ∀ l ∈ data, pOK l = true) :
    (runLines n 0 initState (h1 :: h2 :: data)).2 = none ∧
    (outRecords (runLines n 0 initState (h1 :: h2 :: data)).1.written).length
      = data.length / n ∧
    observablesEq (post_process_resample (h1 :: h2 :: data) n).1
      (post_process_resample (h1 :: h2 :: data.take (n * (data.length / n))) n).1 := by
  obtain ⟨he, hw⟩ := run_full n hn h1 h2 data hok
  have hok2 : ∀ l ∈ data.take (n * (data.length / n)), pOK l = true :=
    fun l hl => hok l (List.take_subset _ data hl)
  obtain ⟨he2, hw2⟩ := run_full n hn h1 h2 (data.take (n * (data.length / n))) hok2
  have hwt : windows n (data.take (n * (data.length / n))) = windows n data :=
    windows_take n hn data.length data le_rfl
  refine ⟨he, ?_, ?_⟩
  · rw [hw, outRecords_append]
    have hA : outRecords (headerState h1 h2).written = [] := rfl
    rw [hA, outRecords_map_recOf]
    simp only [List.nil_append, List.length_map]
    exact windows_length n hn data.length data le_rfl
  · have hs1 : statsOK (runLines n 0 initState (h1 :: h2 :: data)).1 :=
      statsOK_run n _ 0 initState statsOK_initState
    have hs2 : statsOK (runLines n 0 initState
        (h1 :: h2 :: data.take (n * (data.length / n)))).1 :=
      statsOK_run n _ 0 initState statsOK_initState
    have hww : (runLines n 0 initState (h1 :: h2 :: data)).1.written
        = (runLines n 0 initState
            (h1 :: h2 :: data.take (n * (data.length / n)))).1.written := by
      rw [hw, hw2, hwt]
    rw [post_eq_none _ n he, post_eq_none _ n he2]
    exact observablesEq_finalize (eq_of_statsOK_written hs1 hs2 hww)

/-- Witness for C1 at a concrete input: 5 data rows, window size 3. -/
theorem C1_window_count_witness :
    (runLines 3 0 initState ("H1" :: "H2" :: wData5)).2 = none ∧
    (outRecords (runLines 3 0 initState ("H1" :: "H2" :: wData5)).1.written).length
      = wData5.length / 3 ∧
    observablesEq (post_process_resample ("H1" :: "H2" :: wData5) 3).1
      (post_process_resample ("H1" :: "H2" :: wData5.take (3 * (wData5.length / 3))) 3).1 :=
  C1_window_count 3 (by omega) "H1" "H2" wData5 (by decide)

/-- C2: when the data-row count is below `resample_count` (so no complete
window forms), the call fails with the division-by-zero error at mean
finalization, and the output holds exactly the two copied header chunks:
no statistics block (and no record) is written. -/
theorem C2_zero_window (n : Nat) (hn : 1 ≤ n) (h1 h2 : String) (data : List String)
    (hok : ∀ l ∈ data, pOK l = true) (hlt : data.length < n) :
    (post_process_resample (h1 :: h2 :: data) n).2 = some PPErr.zeroDivisionError ∧
    (post_process_resample (h1 :: h2 :: data) n).1.written =
      [Wr.raw (h1 ++ "\n" ++ "\n"), Wr.raw (h2 ++ "\n" ++ "\n")] := by
  have hrun : runLines n 0 initState (h1 :: h2 :: data)
      = (List.foldl accumLine (headerState h1 h2) data, none) := by
    rw [runLines_two_headers]
    refine run_trailing n data (headerState h1 h2) hok ?_
    show 0 + data.length < n
    omega
  have hav : (List.foldl accumLine (headerState h1 h2) data).averaged = 0 := by
    rw [foldlAccum_averaged]
    rfl
  have hwr : (List.foldl accumLine (headerState h1 h2) data).written
      = [Wr.raw (h1 ++ "\n" ++ "\n"), Wr.raw (h2 ++ "\n" ++ "\n")] := by
    rw [foldlAccum_written]
    rfl
  have h2n : (runLines n 0 initState (h1 :: h2 :: data)).2 = none := by rw [hrun]
  rw [post_eq_none _ n h2n, hrun]
  rw [finalize_zero _ hav]
  exact ⟨rfl, hwr⟩

/-- Witness for C2 at a concrete input: 3 data rows, window size 7. -/
theorem C2_zero_window_witness :
    (post_process_resample ("H1" :: "H2" :: wData3) 7).2 = some PPErr.zeroDivisionError ∧
    (post_process_resample ("H1" :: "H2" :: wData3) 7).1.written =
      [Wr.raw ("H1" ++ "\n" ++ "\n"), Wr.raw ("H2" ++ "\n" ++ "\n")] :=
  C2_zero_window 7 (by omega) "H1" "H2" wData3 (by decide) (by decide)

/-- C4, evaluated at the failing input: the code writes each header line
with an extra newline (it writes `fileLine + "\n"` while `fileLine` keeps
its own newline), so line 2 of the output file is empty instead of the
second header line — the first two output lines differ from the first two input lines. -/
theorem C4_header_divergence :
    c4Input.take 2 = ["A,B", "C,D"] ∧
    (textLines (outputText (post_process_resample c4Input 1).1.written)).take 2
      = ["A,B", ""] ∧
    ¬ (textLines (outputText (post_process_resample c4Input 1).1.written)).take 2
        = c4Input.take 2 := by
  with_unfolding_all decide

/-- C6: the spec scenario: channel 0 of the 10 data rows is 1..10 and
`resample_count = 5`; the two emitted records carry channel-0 values 3 and 8,
and the final summaries for channel 0 are max 8, min 3, mean 11/2. -/
theorem C6_scenario :
    (post_process_resample c6Input 5).2 = none ∧
    ((outRecords (post_process_resample c6Input 5).1.written).map fun r => r.2 0)
      = [3, 8] ∧
    (post_process_resample c6Input 5).1.maxData 0 = 8 ∧
    (post_process_resample c6Input 5).1.minData 0 = 3 ∧
    (post_process_resample c6Input 5).1.aveData 0 = 11 / 2 := by
  with_unfolding_all decide

theorem outRecords_headerState (h1 h2 : String) :
    outRecords (headerState h1 h2).written = [] := rfl

/-- The number of emitted records of a full run is the window count. -/
theorem run_full_count (n : Nat) (hn : 1 ≤ n) (h1 h2 : String) (data : List String)
    (hok : ∀ l ∈ data, pOK l = true) :
    (recsOf (runLines n 0 initState (h1 :: h2 :: data)).1.written).length
      = data.length / n := by
  obtain ⟨he, hw⟩ := run_full n hn h1 h2 data hok
  unfold recsOf
  rw [hw, outRecords_append]
  rw [outRecords_headerState, outRecords_map_recOf]
  simp only [List.nil_append, List.length_map]
  exact windows_length n hn data.length data le_rfl

/-- C3: on a well-formed input forming at least one window, the run
succeeds, and every emitted record value of every channel lies between the
final `minData` and `maxData` of that channel. -/
theorem C3_minmax_bounds (n : Nat) (hn : 1 ≤ n) (h1 h2 : String) (data : List String)
    (hok : ∀ l ∈ data, pOK l = true) (hwin : n ≤ data.length) :
    (post_process_resample (h1 :: h2 :: data) n).2 = none ∧
    ∀ i : Fin 8, ∀ r ∈ outRecords (post_process_resample (h1 :: h2 :: data) n).1.written,
      (post_process_resample (h1 :: h2 :: data) n).1.minData i ≤ r.2 i ∧
      r.2 i ≤ (post_process_resample (h1 :: h2 :: data) n).1.maxData i := by
  obtain ⟨he, hw⟩ := run_full n hn h1 h2 data hok
  obtain ⟨h1s, h2s, h3s, h4s⟩ :=
    statsOK_run n (h1 :: h2 :: data) 0 initState statsOK_initState
  have hne0 : ¬ (runLines n 0 initState (h1 :: h2 :: data)).1.averaged = 0 := by
    rw [h1s, run_full_count n hn h1 h2 data hok]
    have hx := (Nat.one_le_div_iff (show 0 < n by omega)).mpr hwin
    omega
  rw [post_eq_none _ n he, finalize_pos _ hne0]
  refine ⟨rfl, ?_⟩
  intro i r hr
  dsimp only at hr ⊢
  rw [outRecords_append] at hr
  have hr2 : r ∈ outRecords (runLines n 0 initState (h1 :: h2 :: data)).1.written := by
    rcases List.mem_append.mp hr with h | h
    · exact h
    · simp [outRecords, List.filterMap_cons] at h
  have hmem : r.2 ∈ recsOf (runLines n 0 initState (h1 :: h2 :: data)).1.written :=
    List.mem_map_of_mem Prod.snd hr2
  have hmemi : r.2 i ∈
      (recsOf (runLines n 0 initState (h1 :: h2 :: data)).1.written).map fun v => v i :=
    List.mem_map_of_mem _ hmem
  constructor
  · rw [h3s i]
    exact foldl_minQ_le_mem _ _ _ hmemi
  · rw [h2s i]
    exact mem_le_foldl_maxQ _ _ _ hmemi

/-- Witness for C3 at a concrete input: 5 data rows, window size 2. -/
theorem C3_minmax_bounds_witness :
    (post_process_resample ("H1" :: "H2" :: wData5) 2).2 = none ∧
    ∀ i : Fin 8, ∀ r ∈ outRecords (post_process_resample ("H1" :: "H2" :: wData5) 2).1.written,
      (post_process_resample ("H1" :: "H2" :: wData5) 2).1.minData i ≤ r.2 i ∧
      r.2 i ≤ (post_process_resample ("H1" :: "H2" :: wData5) 2).1.maxData i :=
  C3_minmax_bounds 2 (by omega) "H1" "H2" wData5 (by decide) (by decide)

/-- C5: the emitted records are exactly one per complete window, valued at
the channel sums of the window divided by `resample_count`; the windows are the
consecutive chunks of the data rows, and multiplying a record value back by
`resample_count` recovers the channel sum of the window exactly. -/
theorem C5_sum_average (n : Nat) (hn : 1 ≤ n) (h1 h2 : String) (data : List String)
    (hok : ∀ l ∈ data, pOK l = true) :
    outRecords (post_process_resample (h1 :: h2 :: data) n).1.written
      = (windows n data).map
          (fun w => (timeOf (w.getLastD ""), fun i => wsumQ w i / (n : ℚ))) ∧
    (windows n data).flatten = data.take (n * (data.length / n)) ∧
    (∀ w ∈ windows n data, ∀ i : Fin 8, (wsumQ w i / (n : ℚ)) * (n : ℚ) = wsumQ w i) := by
  obtain ⟨he, hw⟩ := run_full n hn h1 h2 data hok
  refine ⟨?_, windows_join n hn data.length data le_rfl, ?_⟩
  · rw [post_eq_none _ n he, outRecords_finalize, hw, outRecords_append]
    rw [outRecords_headerState, outRecords_map_recOf]
    simp
  · intro w hwm i
    have hn0 : (n : ℚ) ≠ 0 := Nat.cast_ne_zero.mpr (by omega)
    exact div_mul_cancel₀ _ hn0

/-- Witness for C5 at a concrete input: 5 data rows, window size 2. -/
theorem C5_sum_average_witness :
    outRecords (post_process_resample ("H1" :: "H2" :: wData5) 2).1.written
      = (windows 2 wData5).map
          (fun w => (timeOf (w.getLastD ""), fun i => wsumQ w i / (2 : ℚ))) ∧
    (windows 2 wData5).flatten = wData5.take (2 * (wData5.length / 2)) ∧
    (∀ w ∈ windows 2 wData5, ∀ i : Fin 8, (wsumQ w i / (2 : ℚ)) * (2 : ℚ) = wsumQ w i) := by
  have h := C5_sum_average 2 (by omega) "H1" "H2" wData5 (by decide)
  simpa using h

/-- C7: on a well-formed input forming at least one window, the final
per-channel mean lies between the final per-channel minimum and maximum. -/
theorem C7_mean_bracketing (n : Nat) (hn : 1 ≤ n) (h1 h2 : String) (data : List String)
    (hok : ∀ l ∈ data, pOK l = true) (hwin : n ≤ data.length) :
    (post_process_resample (h1 :: h2 :: data) n).2 = none ∧
    ∀ i : Fin 8,
      (post_process_resample (h1 :: h2 :: data) n).1.minData i ≤
        (post_process_resample (h1 :: h2 :: data) n).1.aveData i ∧
      (post_process_resample (h1 :: h2 :: data) n).1.aveData i ≤
        (post_process_resample (h1 :: h2 :: data) n).1.maxData i := by
  obtain ⟨he, hw⟩ := run_full n hn h1 h2 data hok
  obtain ⟨h1s, h2s, h3s, h4s⟩ :=
    statsOK_run n (h1 :: h2 :: data) 0 initState statsOK_initState
  have hne0 : ¬ (runLines n 0 initState (h1 :: h2 :: data)).1.averaged = 0 := by
    rw [h1s, run_full_count n hn h1 h2 data hok]
    have hx := (Nat.one_le_div_iff (show 0 < n by omega)).mpr hwin
    omega
  rw [post_eq_none _ n he, finalize_pos _ hne0]
  refine ⟨rfl, fun i => ?_⟩
  dsimp only
  have hk : (0 : ℚ) < ((runLines n 0 initState (h1 :: h2 :: data)).1.averaged : ℚ) := by
    rw [Nat.cast_pos]
    omega
  have hlenL : ((((recsOf (runLines n 0 initState (h1 :: h2 :: data)).1.written).map
      fun v => v i)).length : ℚ)
      = ((runLines n 0 initState (h1 :: h2 :: data)).1.averaged : ℚ) := by
    rw [List.length_map, ← h1s]
  have hmax : ∀ x ∈ (recsOf (runLines n 0 initState (h1 :: h2 :: data)).1.written).map
      (fun v => v i), x ≤ (runLines n 0 initState (h1 :: h2 :: data)).1.maxData i := by
    intro x hx
    rw [h2s i]
    exact mem_le_foldl_maxQ _ _ _ hx
  have hmin : ∀ x ∈ (recsOf (runLines n 0 initState (h1 :: h2 :: data)).1.written).map
      (fun v => v i), (runLines n 0 initState (h1 :: h2 :: data)).1.minData i ≤ x := by
    intro x hx
    rw [h3s i]
    exact foldl_minQ_le_mem _ _ _ hx
  constructor
  · rw [h4s i, le_div_iff₀ hk]
    calc (runLines n 0 initState (h1 :: h2 :: data)).1.minData i *
          ((runLines n 0 initState (h1 :: h2 :: data)).1.averaged : ℚ)
        = ((((recsOf (runLines n 0 initState (h1 :: h2 :: data)).1.written).map
            fun v => v i)).length : ℚ) *
          (runLines n 0 initState (h1 :: h2 :: data)).1.minData i := by
          rw [hlenL]; ring
      _ ≤ (((recsOf (runLines n 0 initState (h1 :: h2 :: data)).1.written).map
            fun v => v i)).sum := len_mul_le_sum _ _ hmin
  · rw [h4s i, div_le_iff₀ hk]
    calc (((recsOf (runLines n 0 initState (h1 :: h2 :: data)).1.written).map
            fun v => v i)).sum
        ≤ ((((recsOf (runLines n 0 initState (h1 :: h2 :: data)).1.written).map
            fun v => v i)).length : ℚ) *
          (runLines n 0 initState (h1 :: h2 :: data)).1.maxData i :=
          sum_le_len_mul _ _ hmax
      _ = (runLines n 0 initState (h1 :: h2 :: data)).1.maxData i *
          ((runLines n 0 initState (h1 :: h2 :: data)).1.averaged : ℚ) := by
          rw [hlenL]; ring

/-- Witness for C7 at a concrete input: 5 data rows, window size 5. -/
theorem C7_mean_bracketing_witness :
    (post_process_resample ("H1" :: "H2" :: wData5) 5).2 = none ∧
    ∀ i : Fin 8,
      (post_process_resample ("H1" :: "H2" :: wData5) 5).1.minData i ≤
        (post_process_resample ("H1" :: "H2" :: wData5) 5).1.aveData i ∧
      (post_process_resample ("H1" :: "H2" :: wData5) 5).1.aveData i ≤
        (post_process_resample ("H1" :: "H2" :: wData5) 5).1.maxData i :=
  C7_mean_bracketing 5 (by omega) "H1" "H2" wData5 (by decide) (by decide)

/-- C8: the timestamp of each emitted record is the field-0 token of the
last raw row of its window, copied as-is; each complete window holds exactly
`resample_count` consecutive rows. -/
theorem C8_timestamps (n : Nat) (hn : 1 ≤ n) (h1 h2 : String) (data : List String)
    (hok : ∀ l ∈ data, pOK l = true) :
    (outRecords (post_process_resample (h1 :: h2 :: data) n).1.written).map Prod.fst
      = (windows n data).map (fun w => timeOf (w.getLastD "")) ∧
    ∀ w ∈ windows n data, w.length = n := by
  obtain ⟨he, hw⟩ := run_full n hn h1 h2 data hok
  constructor
  · rw [post_eq_none _ n he, outRecords_finalize, hw, outRecords_append]
    rw [outRecords_headerState, outRecords_map_recOf]
    simp [List.map_map, Function.comp]
  · intro w hwm
    exact (windows_mem n hn data.length data w le_rfl hwm).1

/-- Witness for C8 at a concrete input: 5 data rows, window size 2. -/
theorem C8_timestamps_witness :
    (outRecords (post_process_resample ("H1" :: "H2" :: wData5) 2).1.written).map Prod.fst
      = (windows 2 wData5).map (fun w => timeOf (w.getLastD "")) ∧
    ∀ w ∈ windows 2 wData5, w.length = 2 :=
  C8_timestamps 2 (by omega) "H1" "H2" wData5 (by decide)

/-- C10: with `resample_count = 1` each data row becomes exactly one record
whose timestamp is the field-0 token of the row and whose channel values equal
the parsed integers of the row (each sum divided by 1). -/
theorem C10_identity (h1 h2 : String) (data : List String)
    (hok : ∀ l ∈ data, pOK l = true) :
    outRecords (post_process_resample (h1 :: h2 :: data) 1).1.written
      = data.map (fun l => (timeOf l, fun i => ((lineVals l i : Int) : ℚ))) := by
  obtain ⟨he, hw⟩ := run_full 1 le_rfl h1 h2 data hok
  rw [post_eq_none _ 1 he, outRecords_finalize, hw, outRecords_append]
  rw [outRecords_headerState, outRecords_map_recOf]
  rw [windows_one data.length data le_rfl, List.map_map, List.nil_append]
  refine List.map_congr_left ?_
  intro l hl
  refine Prod.ext ?_ ?_
  · rfl
  · funext i
    show wsumQ [l] i / 1 = ((lineVals l i : Int) : ℚ)
    rw [div_one]
    simp [wsumQ]

/-- Witness for C10 at a concrete input: 3 data rows. -/
theorem C10_identity_witness :
    outRecords (post_process_resample ("H1" :: "H2" :: wData3) 1).1.written
      = wData3.map (fun l => (timeOf l, fun i => ((lineVals l i : Int) : ℚ))) :=
  C10_identity "H1" "H2" wData3 (by decide)

/-- C9 amended: processing aborts at the first data line whose parse raises
(too few fields, or a non-integer among fields 1..8): everything after it is
ignored and the raised value is an IndexError or a ValueError on the field
text — neither carries a line number. -/
theorem C9_parse_abort (n : Nat) (hn : 1 ≤ n) (h1 h2 bad : String)
    (good rest : List String) (e : PPErr)
    (hok : ∀ l ∈ good, pOK l = true)
    (hbad : parseLine (bad ++ "\n") = .error e) :
    post_process_resample (h1 :: h2 :: (good ++ bad :: rest)) n
      = ((runLines n 2 (headerState h1 h2) good).1, some e) ∧
    (e = PPErr.indexError ∨ ∃ t, e = PPErr.valueError t) := by
  have hgood : (runLines n 2 (headerState h1 h2) good).2 = none :=
    (mainRun n hn good.length good (headerState h1 h2) le_rfl hok rfl rfl).1
  have hfull : runLines n 0 initState (h1 :: h2 :: (good ++ bad :: rest))
      = ((runLines n 2 (headerState h1 h2) good).1, some e) := by
    rw [runLines_two_headers]
    rw [runLines_append n good (headerState h1 h2) (bad :: rest) hgood]
    exact runLines_data_err n _ rest hbad
  refine ⟨?_, parseLine_err_shape _ e hbad⟩
  rw [post_eq_err _ n e (by rw [hfull])]
  rw [hfull]

/-- Witness for the amended C9: a good row then a row with a non-integer
field, window size 5. -/
theorem C9_parse_abort_witness :
    post_process_resample
        ("H1" :: "H2" :: (["u,1,2,3,4,5,6,7,8"] ++ "t,x,2,3,4,5,6,7,8" :: [])) 5
      = ((runLines 5 2 (headerState "H1" "H2") ["u,1,2,3,4,5,6,7,8"]).1,
         some (PPErr.valueError "x")) ∧
    (PPErr.valueError "x" = PPErr.indexError ∨
      ∃ t, PPErr.valueError "x" = PPErr.valueError t) :=
  C9_parse_abort 5 (by omega) "H1" "H2" "t,x,2,3,4,5,6,7,8" ["u,1,2,3,4,5,6,7,8"] []
    (PPErr.valueError "x") (by decide) (by rfl)

/-- C9 counterexample: a data line with ten comma-separated fields has the
wrong field count, yet the run does not fail (the extra field is ignored and
a record is emitted); moreover the parse failure raised on a non-integer
field is the same value whether the malformed line is input line 3 or input
line 4, so the error reports no line number. -/
theorem C9_counterexample :
    (splitComma ("t,1,2,3,4,5,6,7,8,99" ++ "\n")).length = 10 ∧
    (post_process_resample c9ExtraInput 1).2 = none ∧
    (outRecords (post_process_resample c9ExtraInput 1).1.written).length = 1 ∧
    (post_process_resample c9BadEarly 5).2 = some (PPErr.valueError "x") ∧
    (post_process_resample c9BadLate 5).2 = some (PPErr.valueError "x") := by
  with_unfolding_all decide

end PowerExamples
